import Mathlib

/-!
Verification development for a shifted-beta-geometric (sBG) customer-retention
library (Fader–Hardie 2006).  The source is a single Python module built on
exact formulas over real numbers; we embed it over `ℚ` (the program only ever
divides by strictly positive quantities on the domains the claims quantify
over, and exact rationals expose the algebra the claims are about).

External primitives of the source — `math.log`, `scipy.special.hyp2f1`, and
the `scipy.optimize.minimize` simplex search — are not code of this
repository; they are modelled as abstract parameters: `log` and `hyp2f1` as
function arguments, and the optimizer as the `OptimizeResult` record that
`fit` post-processes.  Fallible Python code (IndexError on out-of-range
indexing, TypeError on arithmetic with `None`, ValueError from `max` of an
empty sequence, `raise`) is modelled with `Option`/`Except`.
-/

namespace SBG

/-- Result record of the external simplex minimizer, as `fit` consumes it:
the point reached (`x`, an (alpha, beta) pair), the convergence `status`
(0 means converged), and the failure `message`. -/
structure OptimizeResult where
  x : ℚ × ℚ
  status : ℤ
  message : String
  deriving DecidableEq

/-- What `fit` can hand back: a parameter pair (each component `none` when it
is the Python `None` invalid marker), or the raw optimizer record when the
caller asked for it with `return_res`. -/
inductive FitOutput where
  | params (alpha beta : Option ℚ) : FitOutput
  | raw (res : OptimizeResult) : FitOutput
  deriving DecidableEq

/-- Embedding of `fit` (src/shifted_beta_geometric/sbg.py:19-38), given the
outcome `res` of the external minimizer.  Python: `result = res.x`; if
`res.status != 0` replace it by `[None, None]`, raising `Exception(res.message)`
first when `raise_error`; if `return_res`, return the raw record instead. -/
def fit (res : OptimizeResult) (return_res : Bool) (raise_error : Bool) :
    Except String FitOutput :=
  if res.status ≠ 0 then
    if raise_error then Except.error res.message
    else if return_res then Except.ok (FitOutput.raw res)
    else Except.ok (FitOutput.params none none)
  else if return_res then Except.ok (FitOutput.raw res)
  else Except.ok (FitOutput.params (some res.x.1) (some res.x.2))

/-- The loop `for t in range(2, max_range + 1)` of `generate_probabilities`:
`n` iterations remain, `t` is the current loop index, `pp` the last element
appended so far (`p[t-1]`).  Each step appends
`(beta + t - 2) / (alpha + beta + t - 1) * p[t-1]`. -/
def genLoop (alpha beta : ℚ) : ℕ → ℕ → ℚ → List ℚ
  | 0, _, _ => []
  | n + 1, t, pp =>
    let pt := (beta + (t : ℚ) - 2) / (alpha + beta + (t : ℚ) - 1) * pp
    pt :: genLoop alpha beta n (t + 1) pt

/-- Embedding of `generate_probabilities` (sbg.py:58-66).
Python: `p = [None, alpha / (alpha + beta)]`, then the loop appends
`p[t]` for `t = 2 .. max_range`; `range(2, max_range + 1)` runs
`(max_range - 1).toNat` times.  Index 0 holds Python's `None`. -/
def generate_probabilities (alpha beta : ℚ) (max_range : ℤ) : List (Option ℚ) :=
  let p1 := alpha / (alpha + beta)
  none :: some p1 :: (genLoop alpha beta (max_range - 1).toNat 2 p1).map some

/-- Python's `sum` over a slice that may contain `None`: summing a `None`
raises a TypeError, modelled as `none`. -/
def sumOpt : List (Option ℚ) → Option ℚ
  | [] => some 0
  | none :: _ => none
  | some x :: rest => (sumOpt rest).map (fun s => x + s)

/-- Embedding of `survivor` (sbg.py:69-72):
`1 - sum(probabilities[1:t+1])`; the slice is `drop 1` then `take t`
(Python slices clamp at the end of the list). -/
def survivor (probabilities : List (Option ℚ)) (t : ℕ) : Option ℚ :=
  (sumOpt ((probabilities.drop 1).take t)).map (fun s => 1 - s)

/-- The inner loop `for j in range(1, len(cohort))` of `log_likelihood`:
accumulates `total += (cohort[j-1] - cohort[j]) * log(probabilities[j])`.
An out-of-range index (IndexError) or a `None` probability fed to `log`
(TypeError) is `none`. -/
def inner_loop (log : ℚ → ℚ) (p : List (Option ℚ)) (cohort : List ℚ)
    (total : ℚ) : List ℕ → Option ℚ
  | [] => some total
  | j :: js =>
    match cohort[j - 1]?, cohort[j]?, p[j]? with
    | some a, some b, some (some pj) =>
      inner_loop log p cohort (total + (a - b) * log pj) js
    | _, _, _ => none

/-- The outer loop of `log_likelihood` over the cohorts: after the inner
loop, `total += cohort[-1] * log(survivor(probabilities, len(cohort) - 1))`;
`cohort[-1]` of an empty cohort is an IndexError (`none`), and a `None`
inside the survivor slice a TypeError (`none`). -/
def cohorts_loop (log : ℚ → ℚ) (p : List (Option ℚ)) :
    ℚ → List (List ℚ) → Option ℚ
  | total, [] => some total
  | total, cohort :: rest =>
    match inner_loop log p cohort total (List.range' 1 (cohort.length - 1)) with
    | none => none
    | some t1 =>
      match cohort.getLast?, survivor p (cohort.length - 1) with
      | some last, some s => cohorts_loop log p (t1 + last * log s) rest
      | _, _ => none

/-- Embedding of `log_likelihood` (sbg.py:41-55), parametric in the external
`math.log`.  Guard: `if alpha <= 0 or beta <= 0: return -9999`.  Then one
probability sequence of length `max(map(len, data))` is generated (Python's
`max` raises on an empty `data`, hence `none`; on nonempty `data` it equals
the fold of `Nat.max` from 0), and the two loops above accumulate `total`
starting from 0. -/
def log_likelihood (log : ℚ → ℚ) (alpha beta : ℚ) (data : List (List ℚ)) :
    Option ℚ :=
  if alpha ≤ 0 ∨ beta ≤ 0 then some (-9999)
  else if data.isEmpty then none
  else
    let probabilities :=
      generate_probabilities alpha beta
        (((data.map List.length).foldl Nat.max 0 : ℕ) : ℤ)
    cohorts_loop log probabilities 0 data

/-- Embedding of `predicted_retention` (sbg.py:75-78):
`(beta + t - 1) / (alpha + beta + t - 1)`. -/
def predicted_retention (alpha beta : ℚ) (t : ℕ) : ℚ :=
  (beta + (t : ℚ) - 1) / (alpha + beta + (t : ℚ) - 1)

/-- Embedding of `generate_predicted_retentions_x0` (sbg.py:81-91):
`None` when `alpha is None or beta is None or max_range <= 0`, otherwise
`[predicted_retention(alpha, beta, t) for t in range(1, max_range + 1)]`. -/
def generate_predicted_retentions_x0 (alpha beta : Option ℚ) (max_range : ℤ) :
    Option (List ℚ) :=
  match alpha, beta with
  | some a, some b =>
    if max_range ≤ 0 then none
    else some ((List.range' 1 max_range.toNat).map (predicted_retention a b))
  | _, _ => none

/-- The loop `for t in range(2, max_range)` of `predicted_survival`: `n`
iterations remain, `t` is the loop index, `prev` the last element appended
(`s[t-1]`); each step appends `predicted_retention(alpha, beta, t) * s[t-1]`. -/
def survLoop (alpha beta : ℚ) : ℕ → ℕ → ℚ → List ℚ
  | 0, _, _ => []
  | n + 1, t, prev =>
    let st := predicted_retention alpha beta t * prev
    st :: survLoop alpha beta n (t + 1) st

/-- Embedding of `predicted_survival` (sbg.py:94-102).
Python: `s = [1, predicted_retention(alpha, beta, 1)]`, then the loop appends
`s[t]` for `t = 2 .. max_range - 1` (so `(max_range - 2).toNat` iterations),
and finally every entry is scaled by `cohort_user_count`. -/
def predicted_survival (alpha beta : ℚ) (max_range : ℤ)
    (cohort_user_count : ℚ) : List ℚ :=
  let r1 := predicted_retention alpha beta 1
  (1 :: r1 :: survLoop alpha beta (max_range - 2).toNat 2 r1).map
    (fun x => x * cohort_user_count)

/-- Embedding of `generate_predicted_survival_x0` (sbg.py:105-110):
`None` when `alpha is None or beta is None or max_range <= 0`, otherwise
`predicted_survival(alpha, beta, max_range + 1, cohort_user_count)[1:]`. -/
def generate_predicted_survival_x0 (alpha beta : Option ℚ) (max_range : ℤ)
    (cohort_user_count : ℚ) : Option (List ℚ) :=
  match alpha, beta with
  | some a, some b =>
    if max_range ≤ 0 then none
    else some ((predicted_survival a b (max_range + 1) cohort_user_count).drop 1)
  | _, _ => none

/-- Embedding of `derl` (sbg.py:113-119), parametric in the external
`scipy.special.hyp2f1`:
`(beta + n - 1) / (alpha + beta + n - 1) * hyp2f1(1, beta + n, alpha + beta + n, 1 / (1 + d))`. -/
def derl (hyp2f1 : ℚ → ℚ → ℚ → ℚ → ℚ) (alpha beta d : ℚ) (n : ℕ) : ℚ :=
  (beta + (n : ℚ) - 1) / (alpha + beta + (n : ℚ) - 1) *
    hyp2f1 1 (beta + (n : ℚ)) (alpha + beta + (n : ℚ)) (1 / (1 + d))

/-! Specification-side closed forms, used to state the claims: `pAt` is the
value sitting at index `t ≥ 1` of any sufficiently long generated
probability sequence, and `Sval` the survivor value `S(t)` obeying the
paper's retention recurrence. -/

/-- The probability-sequence entry at index `t`, as a function of the index:
`pAt 1 = alpha / (alpha + beta)` and, matching the loop body at index
`t + 2`, `pAt (t+2) = (beta + t) / (alpha + beta + t + 1) * pAt (t+1)`.
Index 0 is the reserved placeholder and is given a dummy value. -/
def pAt (alpha beta : ℚ) : ℕ → ℚ
  | 0 => 0
  | 1 => alpha / (alpha + beta)
  | t + 2 => (beta + (t : ℚ)) / (alpha + beta + (t : ℚ) + 1) * pAt alpha beta (t + 1)

/-- Survivor value `S(t)` in recurrence form: `S(0) = 1` and
`S(t) = predicted_retention(alpha, beta, t) * S(t-1)`. -/
def Sval (alpha beta : ℚ) : ℕ → ℚ
  | 0 => 1
  | t + 1 => predicted_retention alpha beta (t + 1) * Sval alpha beta t

/-- The log-likelihood contribution of one cohort `c` of length `n`, exactly
as the specification states it: the sum over `j = 1 .. n-1` of
`(c[j-1] - c[j]) * log(p[j])` plus `c[n-1] * log(S(n-1))`, where `p[j]` is
the shared probability sequence's entry and `S(t) = 1 - sum(p[1..t])` is the
survivor function over it. -/
def cohortSpecLL (log : ℚ → ℚ) (alpha beta : ℚ) (c : List ℚ) : ℚ :=
  (((List.range' 1 (c.length - 1)).map
      (fun j => (c.getD (j - 1) 0 - c.getD j 0) * log (pAt alpha beta j))).sum)
  + c.getLastD 0 *
      log (1 - ((List.range' 1 (c.length - 1)).map (pAt alpha beta)).sum)

/-! Foundational lemmas. -/

theorem take_range' : ∀ (n s t : ℕ), (List.range' s n).take t = List.range' s (min t n)
  | 0, _, t => by simp
  | n + 1, s, 0 => by simp
  | n + 1, s, t + 1 => by
    rw [List.range'_succ, List.take_succ_cons, take_range' n (s + 1) t]
    have hmin : min (t + 1) (n + 1) = min t n + 1 := by omega
    rw [hmin, List.range'_succ]

theorem sumOpt_map_some : ∀ l : List ℚ, sumOpt (l.map some) = some l.sum
  | [] => by simp [sumOpt]
  | x :: rest => by
    simp [sumOpt, sumOpt_map_some rest]

theorem genLoop_eq (alpha beta : ℚ) :
    ∀ (n s : ℕ), genLoop alpha beta n (s + 2) (pAt alpha beta (s + 1)) =
      (List.range' (s + 2) n).map (pAt alpha beta)
  | 0, s => by simp [genLoop]
  | n + 1, s => by
    have hco : (beta + ((s + 2 : ℕ) : ℚ) - 2) / (alpha + beta + ((s + 2 : ℕ) : ℚ) - 1) =
        (beta + (s : ℚ)) / (alpha + beta + (s : ℚ) + 1) := by
      push_cast
      ring_nf
    have hpt : (beta + ((s + 2 : ℕ) : ℚ) - 2) / (alpha + beta + ((s + 2 : ℕ) : ℚ) - 1) *
        pAt alpha beta (s + 1) = pAt alpha beta (s + 2) := by
      rw [hco, pAt]
    show (beta + ((s + 2 : ℕ) : ℚ) - 2) / (alpha + beta + ((s + 2 : ℕ) : ℚ) - 1) *
        pAt alpha beta (s + 1) ::
        genLoop alpha beta n (s + 3) ((beta + ((s + 2 : ℕ) : ℚ) - 2) /
          (alpha + beta + ((s + 2 : ℕ) : ℚ) - 1) * pAt alpha beta (s + 1)) = _
    rw [hpt]
    have := genLoop_eq alpha beta n (s + 1)
    rw [show s + 1 + 2 = s + 3 from rfl] at this
    rw [this, show List.range' (s + 2) (n + 1) = (s + 2) :: List.range' (s + 3) n from
      List.range'_succ (s + 2) n 1, List.map_cons]

/-- Characterization of the generated probability list: a leading `none`
placeholder followed by the values `pAt alpha beta t` for
`t = 1 .. (max_range - 1).toNat + 1`. -/
theorem gp_eq (alpha beta : ℚ) (max_range : ℤ) :
    generate_probabilities alpha beta max_range =
      none :: ((List.range' 1 ((max_range - 1).toNat + 1)).map (pAt alpha beta)).map some := by
  have h1 : alpha / (alpha + beta) = pAt alpha beta 1 := by rw [pAt]
  show none :: some (alpha / (alpha + beta)) ::
      (genLoop alpha beta (max_range - 1).toNat 2 (alpha / (alpha + beta))).map some = _
  rw [h1]
  rw [show (2 : ℕ) = 0 + 2 from rfl, show (1 : ℕ) = 0 + 1 from rfl,
    genLoop_eq alpha beta (max_range - 1).toNat 0]
  rw [List.range'_succ]
  simp

theorem gp_length (alpha beta : ℚ) (max_range : ℤ) :
    (generate_probabilities alpha beta max_range).length = (max_range - 1).toNat + 2 := by
  rw [gp_eq]
  simp

theorem gp_getElem_zero (alpha beta : ℚ) (max_range : ℤ) :
    (generate_probabilities alpha beta max_range)[0]? = some none := by
  rw [gp_eq]
  simp

theorem gp_getElem (alpha beta : ℚ) (max_range : ℤ) (j : ℕ) (h1 : 1 ≤ j)
    (h2 : j ≤ (max_range - 1).toNat + 1) :
    (generate_probabilities alpha beta max_range)[j]? = some (some (pAt alpha beta j)) := by
  rw [gp_eq]
  obtain ⟨i, rfl⟩ : ∃ i, j = i + 1 := ⟨j - 1, by omega⟩
  rw [List.getElem?_cons_succ, List.getElem?_map, List.getElem?_map,
    List.getElem?_range' 1 1 (show i < (max_range - 1).toNat + 1 by omega)]
  simp [Nat.add_comm 1 i]

/-- Survivor over a generated probability sequence: always defined (the
`None` placeholder sits at index 0, outside the summed slice), with value
`1 - sum(p[1..t])` clamped at the end of the sequence. -/
theorem survivor_gp (alpha beta : ℚ) (max_range : ℤ) (t : ℕ) :
    survivor (generate_probabilities alpha beta max_range) t =
      some (1 - ((List.range' 1 (min t ((max_range - 1).toNat + 1))).map
        (pAt alpha beta)).sum) := by
  rw [gp_eq, survivor]
  rw [show (none :: ((List.range' 1 ((max_range - 1).toNat + 1)).map
      (pAt alpha beta)).map some).drop 1 =
      ((List.range' 1 ((max_range - 1).toNat + 1)).map (pAt alpha beta)).map some from rfl]
  rw [← List.map_take, ← List.map_take, take_range', sumOpt_map_some]
  rfl

/-! Positivity and the survivor algebra, for `alpha, beta > 0`. -/

theorem predicted_retention_pos (alpha beta : ℚ) (hα : 0 < alpha) (hβ : 0 < beta)
    (t : ℕ) (ht : 1 ≤ t) : 0 < predicted_retention alpha beta t := by
  have h1 : (1 : ℚ) ≤ (t : ℚ) := by exact_mod_cast ht
  apply div_pos <;> linarith

theorem predicted_retention_le_one (alpha beta : ℚ) (hα : 0 < alpha) (hβ : 0 < beta)
    (t : ℕ) (ht : 1 ≤ t) : predicted_retention alpha beta t ≤ 1 := by
  have h1 : (1 : ℚ) ≤ (t : ℚ) := by exact_mod_cast ht
  rw [predicted_retention, div_le_one (by linarith)]
  linarith

theorem Sval_pos (alpha beta : ℚ) (hα : 0 < alpha) (hβ : 0 < beta) :
    ∀ t, 0 < Sval alpha beta t
  | 0 => by rw [Sval]; norm_num
  | t + 1 => by
    rw [Sval]
    exact mul_pos (predicted_retention_pos alpha beta hα hβ (t + 1) (by omega))
      (Sval_pos alpha beta hα hβ t)

theorem Sval_le_one (alpha beta : ℚ) (hα : 0 < alpha) (hβ : 0 < beta) :
    ∀ t, Sval alpha beta t ≤ 1
  | 0 => by rw [Sval]
  | t + 1 => by
    rw [Sval]
    calc predicted_retention alpha beta (t + 1) * Sval alpha beta t
        ≤ 1 * 1 := by
          apply mul_le_mul (predicted_retention_le_one alpha beta hα hβ (t + 1) (by omega))
            (Sval_le_one alpha beta hα hβ t) (le_of_lt (Sval_pos alpha beta hα hβ t))
          norm_num
      _ = 1 := by norm_num

theorem pAt_eq_Sval (alpha beta : ℚ) (hα : 0 < alpha) (hβ : 0 < beta) :
    ∀ t : ℕ, pAt alpha beta (t + 1) =
      alpha / (alpha + beta + (t : ℚ)) * Sval alpha beta t
  | 0 => by
    rw [pAt, Sval]
    norm_num
  | t + 1 => by
    rw [pAt, pAt_eq_Sval alpha beta hα hβ t, Sval, predicted_retention]
    push_cast
    ring

theorem pAt_pos (alpha beta : ℚ) (hα : 0 < alpha) (hβ : 0 < beta) (t : ℕ) (ht : 1 ≤ t) :
    0 < pAt alpha beta t := by
  obtain ⟨i, rfl⟩ : ∃ i, t = i + 1 := ⟨t - 1, by omega⟩
  rw [pAt_eq_Sval alpha beta hα hβ i]
  have hi : (0 : ℚ) ≤ (i : ℚ) := by positivity
  exact mul_pos (div_pos hα (by linarith)) (Sval_pos alpha beta hα hβ i)

theorem pAt_lt_one (alpha beta : ℚ) (hα : 0 < alpha) (hβ : 0 < beta) (t : ℕ) (ht : 1 ≤ t) :
    pAt alpha beta t < 1 := by
  obtain ⟨i, rfl⟩ : ∃ i, t = i + 1 := ⟨t - 1, by omega⟩
  rw [pAt_eq_Sval alpha beta hα hβ i]
  have hi : (0 : ℚ) ≤ (i : ℚ) := by positivity
  have hden : (0 : ℚ) < alpha + beta + (i : ℚ) := by linarith
  have hfrac : alpha / (alpha + beta + (i : ℚ)) < 1 := by
    rw [div_lt_one hden]
    linarith
  calc alpha / (alpha + beta + (i : ℚ)) * Sval alpha beta i
      ≤ alpha / (alpha + beta + (i : ℚ)) * 1 := by
        apply mul_le_mul_of_nonneg_left (Sval_le_one alpha beta hα hβ i)
        positivity
    _ = alpha / (alpha + beta + (i : ℚ)) := by norm_num
    _ < 1 := hfrac

theorem pAt_succ_as_diff (alpha beta : ℚ) (hα : 0 < alpha) (hβ : 0 < beta) (t : ℕ) :
    pAt alpha beta (t + 1) = Sval alpha beta t - Sval alpha beta (t + 1) := by
  have hi : (0 : ℚ) ≤ (t : ℚ) := by positivity
  have hden : (alpha + beta + (t : ℚ)) ≠ 0 := by linarith
  have hr : predicted_retention alpha beta (t + 1) =
      (beta + (t : ℚ)) / (alpha + beta + (t : ℚ)) := by
    rw [predicted_retention]
    push_cast
    ring_nf
  rw [pAt_eq_Sval alpha beta hα hβ t, Sval, hr]
  field_simp
  ring

/-- The partial sums of the probability sequence complement the survivor
recurrence: `sum(p[1..t]) = 1 - S(t)`. -/
theorem sum_pAt (alpha beta : ℚ) (hα : 0 < alpha) (hβ : 0 < beta) :
    ∀ t : ℕ, ((List.range' 1 t).map (pAt alpha beta)).sum = 1 - Sval alpha beta t
  | 0 => by simp [Sval]
  | t + 1 => by
    rw [List.range'_concat, List.map_append, List.sum_append,
      sum_pAt alpha beta hα hβ t]
    have := pAt_succ_as_diff alpha beta hα hβ t
    simp only [List.map_cons, List.map_nil, List.sum_cons, List.sum_nil]
    rw [show 1 + 1 * t = t + 1 by omega, this]
    ring

/-! The two loops of `log_likelihood`, characterized. -/

theorem inner_loop_spec (log : ℚ → ℚ) (p : List (Option ℚ)) (co : List ℚ) (g : ℕ → ℚ) :
    ∀ (js : List ℕ) (total : ℚ),
    (∀ j ∈ js, ∃ a b pj, co[j - 1]? = some a ∧ co[j]? = some b ∧
      p[j]? = some (some pj) ∧ (a - b) * log pj = g j) →
    inner_loop log p co total js = some (total + (js.map g).sum)
  | [], total, _ => by simp [inner_loop]
  | j :: js, total, h => by
    obtain ⟨a, b, pj, h1, h2, h3, hg⟩ := h j (by simp)
    simp only [inner_loop, h1, h2, h3]
    rw [inner_loop_spec log p co g js (total + (a - b) * log pj)
      (fun i hi => h i (by simp [hi]))]
    simp only [List.map_cons, List.sum_cons, Option.some_inj]
    rw [← hg]
    ring

theorem cohorts_loop_spec (log : ℚ → ℚ) (alpha beta : ℚ) (hα : 0 < alpha)
    (hβ : 0 < beta) (max_range : ℤ) :
    ∀ (data : List (List ℚ)) (total : ℚ),
    (∀ c ∈ data, c ≠ [] ∧ c.length ≤ (max_range - 1).toNat + 1) →
    cohorts_loop log (generate_probabilities alpha beta max_range) total data =
      some (total + (data.map (cohortSpecLL log alpha beta)).sum)
  | [], total, _ => by simp [cohorts_loop]
  | co :: rest, total, h => by
    obtain ⟨hne, hlen⟩ := h co (by simp)
    have hcond : ∀ j ∈ List.range' 1 (co.length - 1), ∃ a b pj,
        co[j - 1]? = some a ∧ co[j]? = some b ∧
        (generate_probabilities alpha beta max_range)[j]? = some (some pj) ∧
        (a - b) * log pj = (co.getD (j - 1) 0 - co.getD j 0) * log (pAt alpha beta j) := by
      intro j hj
      obtain ⟨i, hi, rfl⟩ := List.mem_range'.mp hj
      have hj1 : 1 + 1 * i - 1 < co.length := by omega
      have hj2 : 1 + 1 * i < co.length := by omega
      refine ⟨co.getD (1 + 1 * i - 1) 0, co.getD (1 + 1 * i) 0,
        pAt alpha beta (1 + 1 * i), ?_, ?_, ?_, rfl⟩
      · rw [List.getD_eq_getElem?_getD, List.getElem?_eq_getElem hj1]
        rfl
      · rw [List.getD_eq_getElem?_getD, List.getElem?_eq_getElem hj2]
        rfl
      · exact gp_getElem alpha beta max_range (1 + 1 * i) (by omega) (by omega)
    have hinner := inner_loop_spec log (generate_probabilities alpha beta max_range) co
      (fun j => (co.getD (j - 1) 0 - co.getD j 0) * log (pAt alpha beta j))
      (List.range' 1 (co.length - 1)) total hcond
    simp only [cohorts_loop, hinner]
    have hlast : co.getLast? = some (co.getLastD 0) := by
      cases hl : co.getLast? with
      | none => exact absurd (List.getLast?_eq_none_iff.mp hl) hne
      | some x =>
        rw [List.getLastD_eq_getLast?, hl]
        rfl
    have hsurv := survivor_gp alpha beta max_range (co.length - 1)
    rw [show min (co.length - 1) ((max_range - 1).toNat + 1) = co.length - 1 by omega]
      at hsurv
    simp only [hlast, hsurv]
    rw [cohorts_loop_spec log alpha beta hα hβ max_range rest _
      (fun d hd => h d (by simp [hd]))]
    simp only [cohortSpecLL, List.map_cons, List.sum_cons, Option.some_inj]
    ring

/-! Bounds on the shared maximum cohort length. -/

theorem foldl_max_init_le : ∀ (l : List ℕ) (a : ℕ), a ≤ l.foldl Nat.max a
  | [], a => le_refl a
  | x :: l, a => le_trans (Nat.le_max_left a x) (foldl_max_init_le l (Nat.max a x))

theorem mem_le_foldl_max : ∀ (l : List ℕ) (a x : ℕ), x ∈ l → x ≤ l.foldl Nat.max a
  | [], _, _, hx => absurd hx (List.not_mem_nil _)
  | y :: l, a, x, hx => by
    rcases List.mem_cons.mp hx with rfl | hx
    · exact le_trans (Nat.le_max_right a x) (foldl_max_init_le l (Nat.max a x))
    · exact mem_le_foldl_max l (Nat.max a y) x hx

/-- Claim C1: for alpha, beta > 0 and a dataset of non-empty cohorts,
`log_likelihood` returns exactly the sum over all cohorts of
`sum_{j=1}^{n-1} (c[j-1] - c[j]) * log(p[j]) + c[n-1] * log(S(n-1))`, with `p`
the single probability sequence of length the maximum cohort length (its
entry at index `j` being `pAt alpha beta j`, independent of the length) and
`S` the survivor function over it, as `cohortSpecLL` states. -/
theorem log_likelihood_is_spec_sum (log : ℚ → ℚ) (alpha beta : ℚ)
    (data : List (List ℚ)) (hα : 0 < alpha) (hβ : 0 < beta) (hne : data ≠ [])
    (hc : ∀ c ∈ data, c ≠ []) :
    log_likelihood log alpha beta data =
      some ((data.map (cohortSpecLL log alpha beta)).sum) := by
  rw [log_likelihood, if_neg (by push_neg; exact ⟨hα, hβ⟩)]
  rw [if_neg (by simp [List.isEmpty_iff, hne])]
  have hfold : ∀ c ∈ data, c.length ≤ (data.map List.length).foldl Nat.max 0 :=
    fun c hcmem => mem_le_foldl_max (data.map List.length) 0 c.length
      (List.mem_map_of_mem List.length hcmem)
  rw [cohorts_loop_spec log alpha beta hα hβ
    (((data.map List.length).foldl Nat.max 0 : ℕ) : ℤ) data 0 ?_]
  · rw [zero_add]
  · intro c hcmem
    refine ⟨hc c hcmem, ?_⟩
    have := hfold c hcmem
    omega

/-- Witness for `log_likelihood_is_spec_sum` at `log = id`, `alpha = beta = 1`,
`data = [[4, 2], [3, 1, 1]]`. -/
theorem log_likelihood_is_spec_sum_witness :
    (0 : ℚ) < 1 ∧ ([[4, 2], [3, 1, 1]] : List (List ℚ)) ≠ [] ∧
    (∀ c ∈ ([[4, 2], [3, 1, 1]] : List (List ℚ)), c ≠ []) ∧
    log_likelihood (fun q => q) 1 1 [[4, 2], [3, 1, 1]] =
      some ((([[4, 2], [3, 1, 1]] : List (List ℚ)).map
        (cohortSpecLL (fun q => q) 1 1)).sum) :=
  ⟨by norm_num, by simp, by simp,
    log_likelihood_is_spec_sum (fun q => q) 1 1 [[4, 2], [3, 1, 1]]
      (by norm_num) (by norm_num) (by simp) (by simp)⟩

/-- Claim C2: for alpha, beta > 0 and maxRange ≥ 1, the generated sequence
has exactly maxRange + 1 entries, an unused placeholder at index 0,
`alpha / (alpha + beta)` at index 1, and at each index `t = 2 .. maxRange`
the value `(beta + t - 2) / (alpha + beta + t - 1)` times the value at
index `t - 1`. -/
theorem generate_probabilities_spec (alpha beta : ℚ) (max_range : ℤ)
    (hα : 0 < alpha) (hβ : 0 < beta) (hT : 1 ≤ max_range) :
    (generate_probabilities alpha beta max_range).length = max_range.toNat + 1 ∧
    (generate_probabilities alpha beta max_range)[0]? = some none ∧
    (∀ t : ℕ, 1 ≤ t → (t : ℤ) ≤ max_range →
      (generate_probabilities alpha beta max_range)[t]? =
        some (some (pAt alpha beta t))) ∧
    pAt alpha beta 1 = alpha / (alpha + beta) ∧
    (∀ t : ℕ, 2 ≤ t → pAt alpha beta t =
      (beta + (t : ℚ) - 2) / (alpha + beta + (t : ℚ) - 1) * pAt alpha beta (t - 1)) := by
  refine ⟨?_, gp_getElem_zero alpha beta max_range, ?_, by rw [pAt], ?_⟩
  · rw [gp_length]
    omega
  · intro t h1 h2
    exact gp_getElem alpha beta max_range t h1 (by omega)
  · intro t ht
    obtain ⟨i, rfl⟩ : ∃ i, t = i + 2 := ⟨t - 2, by omega⟩
    rw [show i + 2 - 1 = i + 1 from rfl, pAt]
    congr 1
    push_cast
    ring_nf

/-- Witness for `generate_probabilities_spec` at `alpha = beta = 1`,
`max_range = 3`. -/
theorem generate_probabilities_spec_witness :
    (0 : ℚ) < 1 ∧ (1 : ℤ) ≤ 3 ∧
    ((generate_probabilities 1 1 3).length = (3 : ℤ).toNat + 1 ∧
    (generate_probabilities 1 1 3)[0]? = some none ∧
    (∀ t : ℕ, 1 ≤ t → (t : ℤ) ≤ 3 →
      (generate_probabilities 1 1 3)[t]? = some (some (pAt 1 1 t))) ∧
    pAt 1 1 1 = 1 / (1 + 1) ∧
    (∀ t : ℕ, 2 ≤ t → pAt 1 1 t =
      (1 + (t : ℚ) - 2) / (1 + 1 + (t : ℚ) - 1) * pAt 1 1 (t - 1))) :=
  ⟨by norm_num, by norm_num,
    generate_probabilities_spec 1 1 3 (by norm_num) (by norm_num) (by norm_num)⟩

/-- Claim C5: whenever alpha ≤ 0 or beta ≤ 0, `log_likelihood` returns the
large-magnitude negative sentinel -9999; it reaches no other code path, so it
neither raises (the result is `some _`, never `none`) nor produces anything
but the sentinel (in particular no NaN, which has no counterpart in exact
rational arithmetic). -/
theorem log_likelihood_sentinel (log : ℚ → ℚ) (alpha beta : ℚ)
    (data : List (List ℚ)) (h : alpha ≤ 0 ∨ beta ≤ 0) :
    log_likelihood log alpha beta data = some (-9999) := by
  rw [log_likelihood, if_pos h]

/-- Witness for `log_likelihood_sentinel` at `alpha = 0`, `beta = -1`. -/
theorem log_likelihood_sentinel_witness :
    ((0 : ℚ) ≤ 0 ∨ (-1 : ℚ) ≤ 0) ∧
    log_likelihood (fun q => q) 0 (-1) [[1000, 869]] = some (-9999) :=
  ⟨Or.inl le_rfl,
    log_likelihood_sentinel (fun q => q) 0 (-1) [[1000, 869]] (Or.inl le_rfl)⟩

/-- Claim C7: for fixed alpha, beta > 0, `predicted_retention` is
non-decreasing in t over t ≥ 1. -/
theorem predicted_retention_monotone (alpha beta : ℚ) (hα : 0 < alpha)
    (hβ : 0 < beta) (t : ℕ) (ht : 1 ≤ t) :
    predicted_retention alpha beta t ≤ predicted_retention alpha beta (t + 1) := by
  have h1 : (1 : ℚ) ≤ (t : ℚ) := by exact_mod_cast ht
  rw [predicted_retention, predicted_retention,
    div_le_div_iff (by linarith) (by push_cast; linarith)]
  push_cast
  nlinarith

/-- Witness for `predicted_retention_monotone` at `alpha = beta = 1`, `t = 1`. -/
theorem predicted_retention_monotone_witness :
    (0 : ℚ) < 1 ∧ (1 : ℕ) ≤ 1 ∧
    predicted_retention 1 1 1 ≤ predicted_retention 1 1 2 :=
  ⟨by norm_num, le_rfl, predicted_retention_monotone 1 1 (by norm_num) (by norm_num) 1 le_rfl⟩

/-- Claim C4: `derl` is exactly `predicted_retention(alpha, beta, tenure)`
times the hypergeometric evaluator applied to
`(1, beta + tenure, alpha + beta + tenure, 1 / (1 + discountRate))` — the
inline ratio in `derl` coincides with the `predicted_retention` closed form. -/
theorem derl_eq_retention_mul_hyp (hyp2f1 : ℚ → ℚ → ℚ → ℚ → ℚ)
    (alpha beta d : ℚ) (n : ℕ) (hα : 0 < alpha) (hβ : 0 < beta) (hd : 0 < d)
    (hn : 1 ≤ n) :
    derl hyp2f1 alpha beta d n = predicted_retention alpha beta n *
      hyp2f1 1 (beta + (n : ℚ)) (alpha + beta + (n : ℚ)) (1 / (1 + d)) := rfl

/-- Witness for `derl_eq_retention_mul_hyp` with a concrete evaluator at
`alpha = beta = d = 1`, `n = 1`. -/
theorem derl_eq_retention_mul_hyp_witness :
    (0 : ℚ) < 1 ∧ (1 : ℕ) ≤ 1 ∧
    derl (fun a b cc z => a + b + cc + z) 1 1 1 1 =
      predicted_retention 1 1 1 *
        (fun a b cc z => a + b + cc + z) 1 (1 + (1 : ℚ)) (1 + 1 + (1 : ℚ)) (1 / (1 + 1)) :=
  ⟨by norm_num, le_rfl,
    derl_eq_retention_mul_hyp (fun a b cc z => a + b + cc + z) 1 1 1 1
      (by norm_num) (by norm_num) (by norm_num) le_rfl⟩

/-- Claim C6: with the default `return_res = false`, a non-converged
optimizer result (`status ≠ 0`) makes `fit` return the invalid-marker pair
`(None, None)` unless the caller set `raise_error`, in which case `fit`
raises an exception carrying the optimizer's message; on convergence
(`status = 0`) `fit` returns the fitted pair and never raises, whatever
`raise_error` is. -/
theorem fit_failure_modes (res : OptimizeResult) :
    (res.status ≠ 0 → fit res false false = Except.ok (FitOutput.params none none)) ∧
    (res.status ≠ 0 → fit res false true = Except.error res.message) ∧
    (res.status = 0 → ∀ raise_error : Bool,
      fit res false raise_error =
        Except.ok (FitOutput.params (some res.x.1) (some res.x.2))) := by
  refine ⟨fun h => ?_, fun h => ?_, fun h raise_error => ?_⟩ <;> simp [fit, h]

/-- Witness for `fit_failure_modes` at concrete optimizer results. -/
theorem fit_failure_modes_witness :
    fit ⟨(2, 3), 1, "did not converge"⟩ false false =
      Except.ok (FitOutput.params none none) ∧
    fit ⟨(2, 3), 1, "did not converge"⟩ false true =
      Except.error "did not converge" ∧
    fit ⟨(2, 3), 0, "ok"⟩ false false =
      Except.ok (FitOutput.params (some 2) (some 3)) :=
  ⟨(fit_failure_modes ⟨(2, 3), 1, "did not converge"⟩).1 (by decide),
    (fit_failure_modes ⟨(2, 3), 1, "did not converge"⟩).2.1 (by decide),
    (fit_failure_modes ⟨(2, 3), 0, "ok"⟩).2.2 rfl false⟩

/-- Claim C8: for alpha, beta > 0 and horizon ≥ 1 the retention-curve
generator returns exactly `[predicted_retention 1, …, predicted_retention
horizon]`; and it returns the failure result `None` whenever alpha or beta
is the invalid marker or the horizon is ≤ 0. -/
theorem retentions_x0_spec (alpha beta : ℚ) (ob : Option ℚ) (max_range : ℤ) :
    (0 < alpha → 0 < beta → 1 ≤ max_range →
      generate_predicted_retentions_x0 (some alpha) (some beta) max_range =
        some ((List.range' 1 max_range.toNat).map (predicted_retention alpha beta))) ∧
    (generate_predicted_retentions_x0 none ob max_range = none) ∧
    (generate_predicted_retentions_x0 (some alpha) none max_range = none) ∧
    (max_range ≤ 0 → ∀ oa : Option ℚ,
      generate_predicted_retentions_x0 oa ob max_range = none) := by
  refine ⟨fun _ _ hT => ?_, rfl, rfl, fun hT oa => ?_⟩
  · rw [generate_predicted_retentions_x0, if_neg (by omega)]
  · rcases oa with _ | a <;> rcases ob with _ | b <;>
      simp [generate_predicted_retentions_x0, hT]

/-- Witness for `retentions_x0_spec` at `alpha = beta = 1`, horizon 3 (and
the failure branches at horizon 0 and `None` parameters). -/
theorem retentions_x0_spec_witness :
    generate_predicted_retentions_x0 (some 1) (some 1) 3 =
      some ((List.range' 1 (3 : ℤ).toNat).map (predicted_retention 1 1)) ∧
    generate_predicted_retentions_x0 none (some 1) 3 = none ∧
    generate_predicted_retentions_x0 (some 1) (some 1) 0 = none :=
  ⟨(retentions_x0_spec 1 1 (some 1) 3).1 (by norm_num) (by norm_num) (by norm_num),
    (retentions_x0_spec 1 1 (some 1) 3).2.1,
    (retentions_x0_spec 1 1 (some 1) 0).2.2.2 le_rfl (some 1)⟩

/-- Claim C9: for alpha, beta > 0 and T ≥ 1, with `p` the generated sequence
of length T, the probability mass `sum(p[1..T])` (the Python sum over the
slice `p[1:T+1]`) and `survivor(p, T)` are both defined and add up to
exactly 1. -/
theorem mass_plus_survivor_eq_one (alpha beta : ℚ) (hα : 0 < alpha)
    (hβ : 0 < beta) (T : ℕ) (hT : 1 ≤ T) :
    ∃ psum s,
      sumOpt (((generate_probabilities alpha beta (T : ℤ)).drop 1).take T) = some psum ∧
      survivor (generate_probabilities alpha beta (T : ℤ)) T = some s ∧
      psum + s = 1 := by
  have hn : ((T : ℤ) - 1).toNat + 1 = T := by omega
  refine ⟨((List.range' 1 T).map (pAt alpha beta)).sum,
    1 - ((List.range' 1 T).map (pAt alpha beta)).sum, ?_, ?_, by ring⟩
  · rw [gp_eq]
    rw [show ((none :: ((List.range' 1 (((T : ℤ) - 1).toNat + 1)).map
        (pAt alpha beta)).map some).drop 1) =
        ((List.range' 1 (((T : ℤ) - 1).toNat + 1)).map (pAt alpha beta)).map some
      from rfl]
    rw [← List.map_take, ← List.map_take, take_range', hn, min_self, sumOpt_map_some]
  · have := survivor_gp alpha beta (T : ℤ) T
    rw [hn, min_self] at this
    exact this

/-- Witness for `mass_plus_survivor_eq_one` at `alpha = beta = 1`, `T = 2`. -/
theorem mass_plus_survivor_eq_one_witness :
    (0 : ℚ) < 1 ∧ (1 : ℕ) ≤ 2 ∧
    (∃ psum s,
      sumOpt (((generate_probabilities 1 1 ((2 : ℕ) : ℤ)).drop 1).take 2) = some psum ∧
      survivor (generate_probabilities 1 1 ((2 : ℕ) : ℤ)) 2 = some s ∧
      psum + s = 1) :=
  ⟨by norm_num, by norm_num,
    mass_plus_survivor_eq_one 1 1 (by norm_num) (by norm_num) 2 (by norm_num)⟩

/-- Claim C10: for alpha, beta > 0, every proper entry of a generated
probability sequence lies strictly between 0 and 1, the survivor value over
it is defined and strictly positive at every index, and consequently, on a
nonempty dataset of non-empty non-increasing cohorts, every argument
`log_likelihood` feeds to `log` — the probability entries `pAt j` at
`j = 1 .. n-1` and the survivor value at `n-1` — is strictly positive, and
`log_likelihood` completes with a value (no log-domain error, no index
error). -/
theorem log_domain_safety (alpha beta : ℚ) (hα : 0 < alpha) (hβ : 0 < beta) :
    (∀ (max_range : ℤ) (t : ℕ) (v : ℚ),
      (generate_probabilities alpha beta max_range)[t]? = some (some v) →
      0 < v ∧ v < 1) ∧
    (∀ (max_range : ℤ) (t : ℕ), ∃ s,
      survivor (generate_probabilities alpha beta max_range) t = some s ∧ 0 < s) ∧
    (∀ (log : ℚ → ℚ) (data : List (List ℚ)), data ≠ [] →
      (∀ co ∈ data, co ≠ [] ∧ List.Chain' (· ≥ ·) co) →
      ((∀ co ∈ data, ∀ j : ℕ, 1 ≤ j → j ≤ co.length - 1 → 0 < pAt alpha beta j) ∧
       (∀ co ∈ data, ∃ s, survivor (generate_probabilities alpha beta
           (((data.map List.length).foldl Nat.max 0 : ℕ) : ℤ)) (co.length - 1) =
           some s ∧ 0 < s) ∧
       ∃ r, log_likelihood log alpha beta data = some r)) := by
  have hsurvpos : ∀ (max_range : ℤ) (t : ℕ), ∃ s,
      survivor (generate_probabilities alpha beta max_range) t = some s ∧ 0 < s := by
    intro T t
    refine ⟨Sval alpha beta (min t ((T - 1).toNat + 1)), ?_,
      Sval_pos alpha beta hα hβ _⟩
    rw [survivor_gp, sum_pAt alpha beta hα hβ, sub_sub_cancel]
  refine ⟨?_, hsurvpos, ?_⟩
  · intro T t v h
    rw [gp_eq] at h
    cases t with
    | zero => simp at h
    | succ i =>
      rw [List.getElem?_cons_succ, List.getElem?_map, List.getElem?_map] at h
      cases hr : (List.range' 1 ((T - 1).toNat + 1))[i]? with
      | none => rw [hr] at h; simp at h
      | some j =>
        rw [hr] at h
        simp only [Option.map_some', Option.some_inj] at h
        obtain ⟨k, hk, rfl⟩ := List.mem_range'.mp (List.getElem?_mem hr)
        rw [← h]
        exact ⟨pAt_pos alpha beta hα hβ (1 + 1 * k) (by omega),
          pAt_lt_one alpha beta hα hβ (1 + 1 * k) (by omega)⟩
  · intro log data hne hco
    refine ⟨fun co _ j hj1 _ => pAt_pos alpha beta hα hβ j hj1,
      fun co _ => hsurvpos _ _, ?_⟩
    refine ⟨0 + (data.map (cohortSpecLL log alpha beta)).sum, ?_⟩
    rw [log_likelihood, if_neg (by push_neg; exact ⟨hα, hβ⟩),
      if_neg (by simp [List.isEmpty_iff, hne])]
    apply cohorts_loop_spec log alpha beta hα hβ _ data 0
    intro co hmem
    refine ⟨(hco co hmem).1, ?_⟩
    have := mem_le_foldl_max (data.map List.length) 0 co.length
      (List.mem_map_of_mem List.length hmem)
    omega

/-- Witness for `log_domain_safety` at `alpha = beta = 1` (and, inside the
third conjunct, the dataset `[[3, 1]]` with identity `log`). -/
theorem log_domain_safety_witness :
    (0 : ℚ) < 1 ∧
    ((∀ (max_range : ℤ) (t : ℕ) (v : ℚ),
      (generate_probabilities 1 1 max_range)[t]? = some (some v) →
      0 < v ∧ v < 1) ∧
    (∀ (max_range : ℤ) (t : ℕ), ∃ s,
      survivor (generate_probabilities 1 1 max_range) t = some s ∧ 0 < s) ∧
    (∀ (log : ℚ → ℚ) (data : List (List ℚ)), data ≠ [] →
      (∀ co ∈ data, co ≠ [] ∧ List.Chain' (· ≥ ·) co) →
      ((∀ co ∈ data, ∀ j : ℕ, 1 ≤ j → j ≤ co.length - 1 → 0 < pAt 1 1 j) ∧
       (∀ co ∈ data, ∃ s, survivor (generate_probabilities 1 1
           (((data.map List.length).foldl Nat.max 0 : ℕ) : ℤ)) (co.length - 1) =
           some s ∧ 0 < s) ∧
       ∃ r, log_likelihood log 1 1 data = some r))) :=
  ⟨by norm_num, log_domain_safety 1 1 (by norm_num) (by norm_num)⟩

theorem survLoop_eq (alpha beta : ℚ) : ∀ (n s : ℕ),
    survLoop alpha beta n (s + 2) (Sval alpha beta (s + 1)) =
      (List.range' (s + 2) n).map (Sval alpha beta)
  | 0, _ => by simp [survLoop]
  | n + 1, s => by
    rw [show survLoop alpha beta (n + 1) (s + 2) (Sval alpha beta (s + 1)) =
        Sval alpha beta (s + 2) ::
          survLoop alpha beta n (s + 3) (Sval alpha beta (s + 2)) from rfl]
    have := survLoop_eq alpha beta n (s + 1)
    rw [show s + 1 + 2 = s + 3 from rfl] at this
    rw [this, show List.range' (s + 2) (n + 1) = (s + 2) :: List.range' (s + 3) n from
      List.range'_succ (s + 2) n 1, List.map_cons]

theorem Sval_one (alpha beta : ℚ) :
    Sval alpha beta 1 = predicted_retention alpha beta 1 := by
  rw [Sval, Sval, mul_one]

/-- Claim C3 counterexample: at the requested horizon 1 (with
`alpha = beta = 1` and initial cohort size 1), `predicted_survival` returns
2 values, not the 1 value the claim promises for every horizon ≥ 1. -/
theorem predicted_survival_horizon_one_cex :
    ¬ ((predicted_survival 1 1 1 1).length = 1) ∧
    (predicted_survival 1 1 1 1).length = 2 := by
  constructor <;> decide

/-- Claim C3 (amended): for every horizon ≥ 2, `predicted_survival` returns
exactly horizon values `S(0), …, S(horizon-1)` scaled by the initial cohort
size, with `S(0) = 1` and `S(t) = predicted_retention(alpha, beta, t) * S(t-1)`
(so its length equals the horizon); for horizon ≤ 1 it instead returns the
two values `[size, predicted_retention(alpha, beta, 1) * size]`; and the
0-based wrapper `generate_predicted_survival_x0` returns, for every
horizon ≥ 1, exactly horizon values `S(1), …, S(horizon)` scaled. -/
theorem predicted_survival_spec (alpha beta c : ℚ) (max_range : ℤ)
    (hα : 0 < alpha) (hβ : 0 < beta) :
    (2 ≤ max_range →
      predicted_survival alpha beta max_range c =
        (List.range max_range.toNat).map (fun t => Sval alpha beta t * c) ∧
      (predicted_survival alpha beta max_range c).length = max_range.toNat) ∧
    (max_range ≤ 1 →
      predicted_survival alpha beta max_range c =
        [c, predicted_retention alpha beta 1 * c]) ∧
    (1 ≤ max_range →
      generate_predicted_survival_x0 (some alpha) (some beta) max_range c =
        some ((List.range' 1 max_range.toNat).map (fun t => Sval alpha beta t * c))) := by
  have hmain : ∀ T : ℤ, 2 ≤ T →
      predicted_survival alpha beta T c =
        (List.range T.toNat).map (fun t => Sval alpha beta t * c) := by
    intro T hT
    obtain ⟨k, hk⟩ : ∃ k, T.toNat = k + 2 := ⟨T.toNat - 2, by omega⟩
    have hk2 : (T - 2).toNat = k := by omega
    show (1 :: predicted_retention alpha beta 1 ::
        survLoop alpha beta (T - 2).toNat 2 (predicted_retention alpha beta 1)).map
        (fun x => x * c) = _
    rw [hk2, ← Sval_one alpha beta]
    rw [show survLoop alpha beta k 2 (Sval alpha beta 1) =
        survLoop alpha beta k (0 + 2) (Sval alpha beta (0 + 1)) from rfl,
      survLoop_eq alpha beta k 0]
    rw [hk, List.range_eq_range',
      show List.range' 0 (k + 2) = 0 :: List.range' 1 (k + 1) from
        List.range'_succ 0 (k + 1) 1,
      show List.range' 1 (k + 1) = 1 :: List.range' 2 k from
        List.range'_succ 1 k 1]
    simp [List.map_map, Sval, Function.comp]
  refine ⟨fun hT => ⟨hmain max_range hT, ?_⟩, fun hT => ?_, fun hT => ?_⟩
  · rw [hmain max_range hT]
    simp
  · show (1 :: predicted_retention alpha beta 1 ::
        survLoop alpha beta (max_range - 2).toNat 2 (predicted_retention alpha beta 1)).map
        (fun x => x * c) = _
    rw [show (max_range - 2).toNat = 0 from by omega]
    simp [survLoop]
  · show (if max_range ≤ 0 then none
      else some ((predicted_survival alpha beta (max_range + 1) c).drop 1)) = _
    rw [if_neg (by omega), hmain (max_range + 1) (by omega),
      show (max_range + 1).toNat = max_range.toNat + 1 from by omega,
      List.range_eq_range',
      show List.range' 0 (max_range.toNat + 1) = 0 :: List.range' 1 max_range.toNat from
        List.range'_succ 0 max_range.toNat 1]
    simp

/-- Witness for `predicted_survival_spec` at `alpha = beta = 1`, initial
cohort size 10, horizons 4 and 1. -/
theorem predicted_survival_spec_witness :
    (predicted_survival 1 1 4 10 =
        (List.range (4 : ℤ).toNat).map (fun t => Sval 1 1 t * 10) ∧
      (predicted_survival 1 1 4 10).length = (4 : ℤ).toNat) ∧
    generate_predicted_survival_x0 (some 1) (some 1) 4 10 =
      some ((List.range' 1 (4 : ℤ).toNat).map (fun t => Sval 1 1 t * 10)) ∧
    predicted_survival 1 1 1 10 = [10, predicted_retention 1 1 1 * 10] :=
  ⟨(predicted_survival_spec 1 1 10 4 (by norm_num) (by norm_num)).1 (by norm_num),
    (predicted_survival_spec 1 1 10 4 (by norm_num) (by norm_num)).2.2 (by norm_num),
    (predicted_survival_spec 1 1 10 1 (by norm_num) (by norm_num)).2.1 le_rfl⟩

end SBG
